import Mathlib

/-!
# Verification of the chainode SDK core

A shallow embedding of `src/sdk/index.js` (the blockchain SDK entrypoint),
together with models — disclosed in their doc comments — of the parts it
requires that are not under `src/` (`JSON.stringify`/`JSON.parse`,
`lib/block.js`, `lib/errors`, the database ledger), and proofs of the
specification's claims about the proposal/validation/append pipeline.
-/

set_option maxHeartbeats 1000000

namespace Chainode

/-! ## JSON values

`serialize`/`deserialize` in `src/sdk/index.js` delegate to the JavaScript
builtins `JSON.stringify` and `JSON.parse`.  We model JSON values as an
inductive type; JSON numbers are modelled as integers (blocks carry only
string fields and an integral timestamp). -/

/-- A JSON value.  Object fields are kept in insertion order, as
`JSON.stringify`/`JSON.parse` preserve it. -/
inductive Json where
  | null
  | bool (b : Bool)
  | num (n : Int)
  | str (s : String)
  | arr (items : List Json)
  | obj (fields : List (String × Json))

/-! ### Serialization (model of `JSON.stringify`) -/

/-- Lower-case hexadecimal digit, as emitted by `JSON.stringify` in
`\u00XX` escapes. -/
def lowerHexChar (n : Nat) : Char :=
  if n < 10 then Char.ofNat (48 + n) else Char.ofNat (87 + n)

/-- Escaping of a single character inside a JSON string literal, following
`JSON.stringify`: `"` and `\` get a backslash escape, the common control
characters get their short escapes, the remaining control characters get
`\u00XX`, and everything else is emitted verbatim. -/
def escapeChar (c : Char) : List Char :=
  if c = '"' then ['\\', '"']
  else if c = '\\' then ['\\', '\\']
  else if c = '\n' then ['\\', 'n']
  else if c = '\t' then ['\\', 't']
  else if c = '\r' then ['\\', 'r']
  else if c.toNat = 8 then ['\\', 'b']
  else if c.toNat = 12 then ['\\', 'f']
  else if c.toNat < 32 then
    '\\' :: 'u' :: '0' :: '0' :: lowerHexChar (c.toNat / 16) :: lowerHexChar (c.toNat % 16) :: []
  else [c]

/-- Escape every character of a JSON string body. -/
def escapeString : List Char → List Char
  | [] => []
  | c :: cs => escapeChar c ++ escapeString cs

/-- Decimal digit character. -/
def digitChar (d : Nat) : Char := Char.ofNat (48 + d)

/-- Decimal representation of a natural number, most significant digit
first (`"0"` for zero), as `JSON.stringify` prints integral numbers. -/
def natChars (n : Nat) : List Char :=
  if n = 0 then ['0'] else (Nat.digits 10 n).reverse.map digitChar

/-- Decimal representation of an integer. -/
def intChars (n : Int) : List Char :=
  if n < 0 then '-' :: natChars n.natAbs else natChars n.toNat

mutual

/-- Model of `JSON.stringify` (character-list level): emits the compact,
whitespace-free form produced by the builtin with no indent argument. -/
def serializeChars : Json → List Char
  | .null => 'n' :: 'u' :: 'l' :: 'l' :: []
  | .bool true => 't' :: 'r' :: 'u' :: 'e' :: []
  | .bool false => 'f' :: 'a' :: 'l' :: 's' :: 'e' :: []
  | .num n => intChars n
  | .str s => '"' :: (escapeString s.data ++ ['"'])
  | .arr l => '[' :: (serializeItems l ++ [']'])
  | .obj l => '\x7b' :: (serializeMembers l ++ ['\x7d'])

/-- Comma-separated serialization of array items. -/
def serializeItems : List Json → List Char
  | [] => []
  | [x] => serializeChars x
  | x :: y :: xs => serializeChars x ++ ',' :: serializeItems (y :: xs)

/-- Comma-separated serialization of object members. -/
def serializeMembers : List (String × Json) → List Char
  | [] => []
  | [(k, v)] => '"' :: (escapeString k.data ++ '"' :: ':' :: serializeChars v)
  | (k, v) :: m :: xs =>
      ('"' :: (escapeString k.data ++ '"' :: ':' :: serializeChars v))
        ++ ',' :: serializeMembers (m :: xs)

end

/-- Model of `serialize` from `src/sdk/index.js`: `JSON.stringify(data)`. -/
def serialize (data : Json) : String := String.mk (serializeChars data)

/-! ### Parsing (model of `JSON.parse`) -/

/-- Value of a hexadecimal digit character, `none` for non-hex characters. -/
def hexVal (c : Char) : Option Nat :=
  if 48 ≤ c.toNat ∧ c.toNat ≤ 57 then some (c.toNat - 48)
  else if 97 ≤ c.toNat ∧ c.toNat ≤ 102 then some (c.toNat - 87)
  else if 65 ≤ c.toNat ∧ c.toNat ≤ 70 then some (c.toNat - 55)
  else none

/-- Meaning of a single-character escape after a backslash (`\u` handled
separately). -/
def unescapeChar (c : Char) : Option Char :=
  if c = '"' then some '"'
  else if c = '\\' then some '\\'
  else if c = '/' then some '/'
  else if c = 'n' then some '\n'
  else if c = 't' then some '\t'
  else if c = 'r' then some '\r'
  else if c = 'b' then some (Char.ofNat 8)
  else if c = 'f' then some (Char.ofNat 12)
  else none

/-- Parse the body of a JSON string literal after the opening quote;
returns the unescaped content and the input remaining after the closing
quote. -/
def parseStringBody : List Char → Option (List Char × List Char)
  | [] => none
  | c :: cs =>
    if c = '"' then some ([], cs)
    else if c = '\\' then
      match cs with
      | [] => none
      | e :: cs2 =>
        if e = 'u' then
          match cs2 with
          | h1 :: h2 :: h3 :: h4 :: cs3 =>
            match hexVal h1, hexVal h2, hexVal h3, hexVal h4 with
            | some a, some b, some d, some e4 =>
              (parseStringBody cs3).map
                (fun p => (Char.ofNat (((a * 16 + b) * 16 + d) * 16 + e4) :: p.1, p.2))
            | _, _, _, _ => none
          | _ => none
        else
          match unescapeChar e with
          | some u => (parseStringBody cs2).map (fun p => (u :: p.1, p.2))
          | none => none
    else (parseStringBody cs).map (fun p => (c :: p.1, p.2))

/-- Parse a nonempty run of decimal digits into a natural number, returning
the rest of the input. -/
def parseNatNum (cs : List Char) : Option (Nat × List Char) :=
  let ds := cs.takeWhile fun c => c.isDigit
  if ds = [] then none
  else some (ds.foldl (fun a c => a * 10 + (c.toNat - 48)) 0, cs.drop ds.length)

/-- Parse a JSON number (integral; a leading `-` followed by digits, or
digits). -/
def parseNumber (cs : List Char) : Option (Json × List Char) :=
  if cs.head? = some '-' then
    (parseNatNum cs.tail).map fun p => (Json.num (-(p.1 : Int)), p.2)
  else
    (parseNatNum cs).map fun p => (Json.num (p.1 : Int), p.2)

mutual

/-- Fueled recursive-descent parser for a JSON value, the model of
`JSON.parse` on the compact texts produced by `serializeChars`. -/
def parseValue : Nat → List Char → Option (Json × List Char)
  | 0, _ => none
  | _ + 1, 'n' :: 'u' :: 'l' :: 'l' :: rest => some (.null, rest)
  | _ + 1, 't' :: 'r' :: 'u' :: 'e' :: rest => some (.bool true, rest)
  | _ + 1, 'f' :: 'a' :: 'l' :: 's' :: 'e' :: rest => some (.bool false, rest)
  | _ + 1, '"' :: rest =>
      (parseStringBody rest).map fun p => (.str (String.mk p.1), p.2)
  | fuel + 1, '[' :: rest =>
      if rest.head? = some ']' then some (.arr [], rest.tail)
      else (parseItems fuel rest).map fun p => (.arr p.1, p.2)
  | fuel + 1, '\x7b' :: rest =>
      if rest.head? = some '\x7d' then some (.obj [], rest.tail)
      else (parseMembers fuel rest).map fun p => (.obj p.1, p.2)
  | _ + 1, cs => parseNumber cs

/-- Parse a nonempty comma-separated list of values followed by `]`. -/
def parseItems : Nat → List Char → Option (List Json × List Char)
  | 0, _ => none
  | fuel + 1, cs =>
    match parseValue fuel cs with
    | none => none
    | some (v, r) =>
      if r.head? = some ',' then (parseItems fuel r.tail).map fun p => (v :: p.1, p.2)
      else if r.head? = some ']' then some ([v], r.tail)
      else none

/-- Parse a nonempty comma-separated list of `"key":value` members followed
by `}`. -/
def parseMembers : Nat → List Char → Option (List (String × Json) × List Char)
  | 0, _ => none
  | fuel + 1, cs =>
    if cs.head? = some '"' then
      match parseStringBody cs.tail with
      | none => none
      | some (k, r1) =>
        if r1.head? = some ':' then
          match parseValue fuel r1.tail with
          | none => none
          | some (v, r3) =>
            if r3.head? = some ',' then
              (parseMembers fuel r3.tail).map fun p => ((String.mk k, v) :: p.1, p.2)
            else if r3.head? = some '\x7d' then some ([(String.mk k, v)], r3.tail)
            else none
        else none
    else none

end

/-- Model of `deserialize` from `src/sdk/index.js`: `JSON.parse(data)`.  Returns
`none` when the builtin would throw a `SyntaxError` (the whole input must
be consumed by one JSON value). -/
def deserialize (data : String) : Option Json :=
  match parseValue (data.data.length + 1) data.data with
  | some (j, []) => some j
  | _ => none

/-! ### Round-trip: character-level helper lemmas -/

theorem char_toNat_ofNat_small (k : Nat) (h : k < 55296) : (Char.ofNat k).toNat = k := by
  have hv : k.isValidChar := Or.inl h
  simp only [Char.ofNat, hv, dif_pos]
  rfl

theorem char_ofNat_toNat (c : Char) (h : c.toNat < 55296) : Char.ofNat c.toNat = c := by
  have hv : c.toNat.isValidChar := Or.inl h
  simp only [Char.ofNat, hv, dif_pos]
  apply Char.ext
  apply UInt32.ext
  rfl

theorem isDigit_iff (c : Char) : c.isDigit = true ↔ 48 ≤ c.toNat ∧ c.toNat ≤ 57 := by
  simp only [Char.isDigit, Bool.and_eq_true, decide_eq_true_eq, ge_iff_le]
  exact ⟨fun ⟨h1, h2⟩ => ⟨h1, h2⟩, fun ⟨h1, h2⟩ => ⟨h1, h2⟩⟩

theorem hexVal_lowerHexChar (m : Nat) (h : m < 16) : hexVal (lowerHexChar m) = some m := by
  unfold hexVal lowerHexChar
  by_cases h10 : m < 10
  · rw [if_pos h10, char_toNat_ofNat_small (48 + m) (by omega)]
    rw [if_pos (by omega)]
    congr 1
    omega
  · rw [if_neg h10, char_toNat_ofNat_small (87 + m) (by omega)]
    rw [if_neg (by omega), if_pos (by omega)]
    congr 1
    omega

theorem digitChar_toNat (d : Nat) (h : d < 10) : (digitChar d).toNat = 48 + d := by
  unfold digitChar
  exact char_toNat_ofNat_small _ (by omega)

theorem digitChar_isDigit (d : Nat) (h : d < 10) : (digitChar d).isDigit = true := by
  rw [isDigit_iff, digitChar_toNat d h]
  omega

theorem natChars_ne_nil (n : Nat) : natChars n ≠ [] := by
  unfold natChars
  split
  · simp
  · simp [Nat.digits_ne_nil_iff_ne_zero, *]

theorem natChars_all_digits (n : Nat) : ∀ c ∈ natChars n, c.isDigit = true := by
  intro c hc
  unfold natChars at hc
  split at hc
  · simp at hc
    subst hc
    decide
  · simp only [List.mem_map, List.mem_reverse] at hc
    obtain ⟨d, hd, rfl⟩ := hc
    exact digitChar_isDigit d (Nat.digits_lt_base (by norm_num) hd)

theorem foldl_base10 (L : List Nat) (acc : Nat) :
    L.reverse.foldl (fun a d => a * 10 + d) acc = acc * 10 ^ L.length + Nat.ofDigits 10 L := by
  induction L generalizing acc with
  | nil => simp [Nat.ofDigits]
  | cons d L ih =>
    simp only [List.reverse_cons, List.foldl_append, List.foldl_cons, List.foldl_nil, ih,
      Nat.ofDigits_cons, List.length_cons]
    ring

theorem foldl_natChars (n : Nat) :
    (natChars n).foldl (fun a c => a * 10 + (c.toNat - 48)) 0 = n := by
  unfold natChars
  split
  · next h => subst h; decide
  · next h =>
    rw [List.foldl_map]
    have hext : (Nat.digits 10 n).reverse.foldl (fun a d => a * 10 + ((digitChar d).toNat - 48)) 0
        = (Nat.digits 10 n).reverse.foldl (fun a d => a * 10 + d) 0 := by
      apply List.foldl_ext
      intro a b hb
      rw [digitChar_toNat b (Nat.digits_lt_base (by norm_num) (List.mem_reverse.mp hb))]
      omega
    rw [hext, foldl_base10]
    simp [Nat.ofDigits_digits]

/-! ### Round-trip: numbers -/

/-- The rest of the input does not begin with a decimal digit (so a number
written just before it parses back unambiguously). -/
def headNotDigit (cs : List Char) : Prop := ∀ c, cs.head? = some c → c.isDigit = false

theorem takeWhile_append_all {p : Char → Bool} (l rest : List Char)
    (hl : ∀ c ∈ l, p c = true) (hr : ∀ c, rest.head? = some c → p c = false) :
    (l ++ rest).takeWhile p = l := by
  induction l with
  | nil =>
    simp only [List.nil_append]
    cases rest with
    | nil => rfl
    | cons r rs => simp [List.takeWhile_cons, hr r rfl]
  | cons c cs ih =>
    simp [List.takeWhile_cons, hl c (by simp), ih fun d hd => hl d (by simp [hd])]

theorem parseNatNum_natChars (n : Nat) (rest : List Char) (h : headNotDigit rest) :
    parseNatNum (natChars n ++ rest) = some (n, rest) := by
  unfold parseNatNum
  rw [takeWhile_append_all (natChars n) rest (natChars_all_digits n) h]
  rw [if_neg (natChars_ne_nil n), List.drop_left, foldl_natChars]

theorem natChars_head_ne_minus (n : Nat) (c : Char) (cs : List Char)
    (h : natChars n = c :: cs) : c ≠ '-' := by
  have hc : c.isDigit = true := natChars_all_digits n c (by rw [h]; simp)
  intro he
  subst he
  exact absurd hc (by decide)

theorem parseNumber_intChars (n : Int) (rest : List Char) (h : headNotDigit rest) :
    parseNumber (intChars n ++ rest) = some (Json.num n, rest) := by
  unfold parseNumber intChars
  by_cases hn : n < 0
  · rw [if_pos hn]
    simp only [List.cons_append, List.head?_cons, List.tail_cons, Option.some.injEq]
    rw [if_pos trivial, parseNatNum_natChars _ _ h]
    have habs : -((n.natAbs : Int)) = n := by omega
    simp only [Option.map_some', habs]
  · rw [if_neg hn]
    obtain ⟨c, cs, hc⟩ : ∃ c cs, natChars n.toNat = c :: cs := by
      cases hnn : natChars n.toNat with
      | nil => exact absurd hnn (natChars_ne_nil _)
      | cons c cs => exact ⟨c, cs, rfl⟩
    rw [hc]
    simp only [List.cons_append, List.head?_cons]
    have hcm : ¬ (c = '-') := natChars_head_ne_minus _ _ _ hc
    rw [if_neg (by simpa using hcm)]
    rw [← List.cons_append, ← hc, parseNatNum_natChars _ _ h]
    have habs : ((n.toNat : Int)) = n := by omega
    simp only [Option.map_some', habs]

/-! ### Round-trip: strings -/

theorem parseStringBody_short_escape (e u : Char) (cs : List Char)
    (he : ¬ e = 'u') (hu : unescapeChar e = some u) :
    parseStringBody ('\\' :: e :: cs) = (parseStringBody cs).map fun p => (u :: p.1, p.2) := by
  rw [parseStringBody.eq_def]
  dsimp only
  rw [if_neg (by decide), if_pos rfl, if_neg he, hu]

theorem parseStringBody_raw (c : Char) (cs : List Char)
    (h1 : ¬ c = '"') (h2 : ¬ c = '\\') :
    parseStringBody (c :: cs) = (parseStringBody cs).map fun p => (c :: p.1, p.2) := by
  rw [parseStringBody.eq_def]
  dsimp only
  rw [if_neg h1, if_neg h2]

theorem parseStringBody_u_escape (a b : Nat) (cs : List Char) (ha : a < 16) (hb : b < 16) :
    parseStringBody ('\\' :: 'u' :: '0' :: '0' :: lowerHexChar a :: lowerHexChar b :: cs)
      = (parseStringBody cs).map fun p => (Char.ofNat (a * 16 + b) :: p.1, p.2) := by
  rw [parseStringBody.eq_def]
  dsimp only
  rw [if_neg (by decide), if_pos rfl, if_pos rfl]
  rw [show hexVal '0' = some 0 from rfl, hexVal_lowerHexChar a ha, hexVal_lowerHexChar b hb]
  dsimp only
  norm_num

theorem parseStringBody_escape (s : List Char) (rest : List Char) :
    parseStringBody (escapeString s ++ '"' :: rest) = some (s, rest) := by
  induction s with
  | nil =>
    rw [escapeString, List.nil_append, parseStringBody.eq_def]
    dsimp only
    rw [if_pos rfl]
  | cons c cs ih =>
    show parseStringBody ((escapeChar c ++ escapeString cs) ++ '"' :: rest) = _
    rw [List.append_assoc]
    unfold escapeChar
    split_ifs with h1 h2 h3 h4 h5 h6 h7 h8
    · subst h1
      simp [parseStringBody_short_escape '"' '"' _ (by decide) rfl, ih]
    · subst h2
      simp [parseStringBody_short_escape '\\' '\\' _ (by decide) rfl, ih]
    · subst h3
      simp [parseStringBody_short_escape 'n' '\n' _ (by decide) rfl, ih]
    · subst h4
      simp [parseStringBody_short_escape 't' '\t' _ (by decide) rfl, ih]
    · subst h5
      simp [parseStringBody_short_escape 'r' '\r' _ (by decide) rfl, ih]
    · have hc : c = Char.ofNat 8 := by rw [← char_ofNat_toNat c (by omega), h6]
      subst hc
      simp [parseStringBody_short_escape 'b' _ _ (by decide) rfl, ih]
    · have hc : c = Char.ofNat 12 := by rw [← char_ofNat_toNat c (by omega), h7]
      subst hc
      simp [parseStringBody_short_escape 'f' _ _ (by decide) rfl, ih]
    · simp only [List.cons_append, List.nil_append]
      rw [parseStringBody_u_escape (c.toNat / 16) (c.toNat % 16) _ (by omega) (by omega)]
      have hc : c.toNat / 16 * 16 + c.toNat % 16 = c.toNat := by omega
      rw [hc, char_ofNat_toNat c (by omega), ih]
      rfl
    · simp only [List.singleton_append]
      rw [parseStringBody_raw c _ h1 h2, ih]
      rfl

/-! ### Round-trip: fuel bounds and the main induction -/

mutual

/-- Fuel needed by `parseValue` to parse the serialization of a value. -/
def jsize : Json → Nat
  | .null => 1
  | .bool _ => 1
  | .num _ => 1
  | .str _ => 1
  | .arr l => 1 + fuelItems l
  | .obj l => 1 + fuelMembers l

/-- Fuel needed by `parseItems` for a serialized item list. -/
def fuelItems : List Json → Nat
  | [] => 0
  | x :: xs => 1 + jsize x + fuelItems xs

/-- Fuel needed by `parseMembers` for a serialized member list. -/
def fuelMembers : List (String × Json) → Nat
  | [] => 0
  | kv :: xs => 1 + jsize kv.2 + fuelMembers xs

end

theorem jsize_pos (x : Json) : 1 ≤ jsize x := by
  cases x <;> simp [jsize]

theorem intChars_head (n : Int) :
    ∃ c cs, intChars n = c :: cs ∧ (c.isDigit = true ∨ c = '-') := by
  unfold intChars
  split
  · exact ⟨'-', natChars n.natAbs, rfl, Or.inr rfl⟩
  · cases hnn : natChars n.toNat with
    | nil => exact absurd hnn (natChars_ne_nil _)
    | cons c cs =>
      exact ⟨c, cs, rfl, Or.inl (natChars_all_digits _ c (by rw [hnn]; simp))⟩

/-- The first character of a serialized JSON value is never `]`. -/
theorem serializeChars_head (x : Json) :
    ∃ c cs, serializeChars x = c :: cs ∧ ¬ c = ']' := by
  cases x with
  | null => exact ⟨'n', _, rfl, by decide⟩
  | bool b => cases b with
    | true => exact ⟨'t', _, rfl, by decide⟩
    | false => exact ⟨'f', _, rfl, by decide⟩
  | num n =>
    obtain ⟨c, cs, hc, hd⟩ := intChars_head n
    refine ⟨c, cs, by rw [serializeChars, hc], ?_⟩
    rcases hd with h | h
    · rw [isDigit_iff] at h
      intro he
      subst he
      revert h
      decide
    · subst h
      decide
  | str s => exact ⟨'"', _, rfl, by decide⟩
  | arr l => exact ⟨'[', _, rfl, by decide⟩
  | obj l => exact ⟨'\x7b', _, rfl, by decide⟩

theorem parseValue_num (fuel : Nat) (c : Char) (tail : List Char)
    (hd : c.isDigit = true ∨ c = '-') :
    parseValue (fuel + 1) (c :: tail) = parseNumber (c :: tail) := by
  have hc : 48 ≤ c.toNat ∧ c.toNat ≤ 57 ∨ c = '-' := by
    rcases hd with h | h
    · exact Or.inl ((isDigit_iff c).mp h)
    · exact Or.inr h
  have hne : (¬ c = 'n') ∧ (¬ c = 't') ∧ (¬ c = 'f') ∧ (¬ c = '"')
      ∧ (¬ c = '[') ∧ (¬ c = '\x7b') := by
    rcases hc with h | h
    · refine ⟨?_, ?_, ?_, ?_, ?_, ?_⟩ <;> (intro he; subst he; revert h; decide)
    · subst h
      exact ⟨by decide, by decide, by decide, by decide, by decide, by decide⟩
  obtain ⟨hn, ht, hf, hq, hl, hb⟩ := hne
  rw [parseValue.eq_def]
  split
  · omega
  all_goals try rfl
  all_goals simp_all

theorem string_mk_data (s : String) : String.mk s.data = s := rfl

theorem headNotDigit_cons (c : Char) (cs : List Char) (h : c.isDigit = false) :
    headNotDigit (c :: cs) := by
  intro d hd
  simp only [List.head?_cons, Option.some.injEq] at hd
  subst hd
  exact h

theorem serializeItems_head (l : List Json) (hne : l ≠ []) :
    ∃ c cs, serializeItems l = c :: cs ∧ ¬ c = ']' := by
  cases l with
  | nil => exact absurd rfl hne
  | cons x xs =>
    obtain ⟨c, cs, hc, hne'⟩ := serializeChars_head x
    cases xs with
    | nil => exact ⟨c, cs, by rw [serializeItems, hc], hne'⟩
    | cons y ys =>
      exact ⟨c, cs ++ ',' :: serializeItems (y :: ys),
        by rw [serializeItems, hc, List.cons_append], hne'⟩

theorem serializeMembers_head (l : List (String × Json)) (hne : l ≠ []) :
    ∃ cs, serializeMembers l = '"' :: cs := by
  cases l with
  | nil => exact absurd rfl hne
  | cons kv xs =>
    obtain ⟨k, v⟩ := kv
    cases xs with
    | nil => exact ⟨_, rfl⟩
    | cons m ms => exact ⟨_, by rw [serializeMembers, List.cons_append]⟩

theorem parse_serialize (fuel : Nat) :
    (∀ x rest, headNotDigit rest → jsize x ≤ fuel →
      parseValue fuel (serializeChars x ++ rest) = some (x, rest)) ∧
    (∀ l rest, l ≠ [] → fuelItems l ≤ fuel →
      parseItems fuel (serializeItems l ++ ']' :: rest) = some (l, rest)) ∧
    (∀ l rest, l ≠ [] → fuelMembers l ≤ fuel →
      parseMembers fuel (serializeMembers l ++ '\x7d' :: rest) = some (l, rest)) := by
  induction fuel with
  | zero =>
    refine ⟨fun x rest _ hsz => absurd hsz (by have := jsize_pos x; omega),
            fun l rest hne hsz => ?_, fun l rest hne hsz => ?_⟩
    · cases l with
      | nil => exact absurd rfl hne
      | cons x xs =>
        exfalso
        rw [fuelItems] at hsz
        omega
    · cases l with
      | nil => exact absurd rfl hne
      | cons kv xs =>
        exfalso
        obtain ⟨k, v⟩ := kv
        rw [fuelMembers] at hsz
        dsimp only at hsz
        omega
  | succ f ih =>
    obtain ⟨ihV, ihI, ihM⟩ := ih
    refine ⟨?_, ?_, ?_⟩
    · intro x rest hnd hsz
      cases x with
      | null => simp [serializeChars, parseValue]
      | bool b => cases b <;> simp [serializeChars, parseValue]
      | num n =>
        obtain ⟨c, cs, hc, hd⟩ := intChars_head n
        rw [serializeChars, hc, List.cons_append, parseValue_num f c _ hd,
          ← List.cons_append, ← hc, parseNumber_intChars n rest hnd]
      | str s =>
        rw [serializeChars, List.cons_append, List.append_assoc, List.singleton_append]
        simp only [parseValue]
        rw [parseStringBody_escape s.data rest]
        simp [string_mk_data]
      | arr l =>
        cases l with
        | nil => simp [serializeChars, serializeItems, parseValue]
        | cons x xs =>
          rw [serializeChars, List.cons_append, List.append_assoc, List.singleton_append]
          obtain ⟨c, cs, hc, hne'⟩ := serializeItems_head (x :: xs) (by simp)
          simp only [parseValue]
          rw [hc, List.cons_append, List.head?_cons]
          rw [if_neg (by simpa using hne'), ← List.cons_append, ← hc]
          rw [jsize, fuelItems] at hsz
          rw [ihI (x :: xs) rest (by simp) (by rw [fuelItems]; omega)]
          rfl
      | obj l =>
        cases l with
        | nil => simp [serializeChars, serializeMembers, parseValue]
        | cons kv xs =>
          rw [serializeChars, List.cons_append, List.append_assoc, List.singleton_append]
          obtain ⟨cs, hc⟩ := serializeMembers_head (kv :: xs) (by simp)
          simp only [parseValue]
          rw [hc, List.cons_append, List.head?_cons]
          rw [if_neg (by decide), ← List.cons_append, ← hc]
          obtain ⟨k, v⟩ := kv
          rw [jsize, fuelMembers] at hsz
          rw [ihM ((k, v) :: xs) rest (by simp) (by rw [fuelMembers]; omega)]
          rfl
    · intro l rest hne hsz
      cases l with
      | nil => exact absurd rfl hne
      | cons x xs =>
        rw [fuelItems] at hsz
        cases xs with
        | nil =>
          rw [serializeItems]
          simp only [parseItems]
          rw [ihV x (']' :: rest) (headNotDigit_cons _ _ (by decide)) (by omega)]
          dsimp only
          rw [List.head?_cons, if_neg (by decide), if_pos rfl, List.tail_cons]
        | cons y ys =>
          rw [serializeItems, List.append_assoc, List.cons_append]
          simp only [parseItems]
          rw [ihV x (',' :: (serializeItems (y :: ys) ++ ']' :: rest))
            (headNotDigit_cons _ _ (by decide)) (by omega)]
          dsimp only
          rw [List.head?_cons, if_pos rfl, List.tail_cons]
          rw [ihI (y :: ys) rest (by simp) (by omega)]
          rfl
    · intro l rest hne hsz
      cases l with
      | nil => exact absurd rfl hne
      | cons kv xs =>
        obtain ⟨k, v⟩ := kv
        rw [fuelMembers] at hsz
        dsimp only at hsz
        cases xs with
        | nil =>
          rw [serializeMembers]
          simp only [List.cons_append, List.append_assoc]
          simp only [parseMembers]
          rw [List.head?_cons, if_pos rfl, List.tail_cons]
          rw [parseStringBody_escape k.data]
          dsimp only
          rw [List.head?_cons, if_pos rfl, List.tail_cons]
          rw [ihV v ('\x7d' :: rest) (headNotDigit_cons _ _ (by decide)) (by omega)]
          dsimp only
          rw [List.head?_cons, if_neg (by decide), if_pos rfl, List.tail_cons,
            string_mk_data]
        | cons m ms =>
          rw [serializeMembers]
          simp only [List.cons_append, List.append_assoc]
          simp only [parseMembers]
          rw [List.head?_cons, if_pos rfl, List.tail_cons]
          rw [parseStringBody_escape k.data]
          dsimp only
          rw [List.head?_cons, if_pos rfl, List.tail_cons]
          rw [ihV v (',' :: (serializeMembers (m :: ms) ++ '\x7d' :: rest))
            (headNotDigit_cons _ _ (by decide)) (by omega)]
          dsimp only
          rw [List.head?_cons, if_pos rfl, List.tail_cons]
          rw [ihM (m :: ms) rest (by simp) (by omega), string_mk_data]
          rfl

theorem intChars_ne_nil (n : Int) : intChars n ≠ [] := by
  obtain ⟨c, cs, hc, _⟩ := intChars_head n
  rw [hc]
  simp

theorem jsize_le (n : Nat) :
    (∀ x, jsize x ≤ n → jsize x ≤ (serializeChars x).length) ∧
    (∀ l, fuelItems l ≤ n → fuelItems l ≤ (serializeItems l).length + 1) ∧
    (∀ l, fuelMembers l ≤ n → fuelMembers l ≤ (serializeMembers l).length + 1) := by
  induction n with
  | zero =>
    refine ⟨fun x hx => absurd hx (by have := jsize_pos x; omega),
            fun l hl => ?_, fun l hl => ?_⟩
    · cases l with
      | nil => simp [fuelItems]
      | cons x xs => rw [fuelItems] at hl; omega
    · cases l with
      | nil => simp [fuelMembers]
      | cons kv xs =>
        obtain ⟨k, v⟩ := kv
        rw [fuelMembers] at hl
        dsimp only at hl
        omega
  | succ n ih =>
    obtain ⟨ihV, ihI, ihM⟩ := ih
    refine ⟨?_, ?_, ?_⟩
    · intro x hx
      cases x with
      | null => simp [jsize, serializeChars]
      | bool b => cases b <;> simp [jsize, serializeChars]
      | num m =>
        rw [jsize, serializeChars]
        have := intChars_ne_nil m
        have : 0 < (intChars m).length := List.length_pos.mpr this
        omega
      | str s => simp [jsize, serializeChars]
      | arr l =>
        rw [jsize] at hx ⊢
        have h1 := ihI l (by omega)
        rw [serializeChars]
        simp only [List.length_cons, List.length_append, List.length_singleton]
        omega
      | obj l =>
        rw [jsize] at hx ⊢
        have h1 := ihM l (by omega)
        rw [serializeChars]
        simp only [List.length_cons, List.length_append, List.length_singleton]
        omega
    · intro l hl
      cases l with
      | nil => simp [fuelItems]
      | cons x xs =>
        rw [fuelItems] at hl ⊢
        have h1 := ihV x (by omega)
        have h2 := ihI xs (by omega)
        cases xs with
        | nil =>
          rw [serializeItems]
          rw [fuelItems]
          omega
        | cons y ys =>
          rw [serializeItems]
          simp only [List.length_append, List.length_cons]
          omega
    · intro l hl
      cases l with
      | nil => simp [fuelMembers]
      | cons kv xs =>
        obtain ⟨k, v⟩ := kv
        rw [fuelMembers] at hl ⊢
        dsimp only at hl ⊢
        have h1 := ihV v (by omega)
        have h2 := ihM xs (by omega)
        cases xs with
        | nil =>
          rw [serializeMembers]
          rw [fuelMembers]
          simp only [List.length_cons, List.length_append]
          omega
        | cons m ms =>
          rw [serializeMembers]
          simp only [List.length_append, List.length_cons]
          omega

/-- Composing `deserialize` after `serialize` is the identity on JSON values. -/
theorem deserialize_serialize (x : Json) : deserialize (serialize x) = some x := by
  have hlen : jsize x ≤ (serializeChars x).length := (jsize_le (jsize x)).1 x le_rfl
  unfold deserialize serialize
  have hdata : (String.mk (serializeChars x)).data = serializeChars x := rfl
  rw [hdata]
  have h := (parse_serialize ((serializeChars x).length + 1)).1 x []
    (by intro c hc; simp at hc) (by omega)
  rw [List.append_nil] at h
  rw [h]

/-! ## JavaScript value helpers

`addBlockToLedger` receives the raw deserialized JSON value and accesses
properties on it dynamically; these helpers model JavaScript property
access, truthiness, and template-literal interpolation. -/

/-- Property access `j[k]`: a lookup on objects, `undefined` (here `none`)
on every other value. -/
def jsonGet (j : Json) (k : String) : Option Json :=
  match j with
  | .obj fields => fields.lookup k
  | _ => none

/-- JavaScript truthiness of a JSON value. -/
def jsTruthy : Json → Bool
  | .null => false
  | .bool b => b
  | .num n => n != 0
  | .str s => s != ""
  | .arr _ => true
  | .obj _ => true

/-- Template-literal interpolation of a JSON value (composite values are
approximated; block hashes, the only values interpolated here, are
strings). -/
def jsShow : Json → String
  | .str s => s
  | .num n => toString n
  | .bool true => "true"
  | .bool false => "false"
  | .null => "null"
  | .arr _ => ""
  | .obj _ => "[object Object]"

/-! ## Blocks (`lib/block.js`, modelled)

`src/sdk/index.js` imports `isValidBlock` and `generateNextBlock` from
`../lib/block`, which is not under `src/`; both are modelled from the
spec. -/

/-- A block, with the field names and shapes of the spec's data model
(§3): all fields are strings except the integral `timestamp`. -/
structure Block where
  organization : String
  payload : String
  previousHash : String
  timestamp : Int
  hash : String
deriving DecidableEq

/-- Modelled from the spec: `lib/block.js` is not under `src/`.  §4.1: the
hash is a deterministic digest over the canonical concatenation of
organization, payload, previousHash and timestamp.  The external digest
(SHA-256) is modelled as the concatenation itself; every claim proved here
holds for any deterministic function of these four fields. -/
def calcBlockHash (organization payload previousHash : String) (timestamp : Int) : String :=
  organization ++ payload ++ previousHash ++ toString timestamp

/-- The hash recomputed from a block's own fields. -/
def blockHash (b : Block) : String :=
  calcBlockHash b.organization b.payload b.previousHash b.timestamp

/-- Modelled from the spec: `lib/block.js` is not under `src/`.  §4.1:
`generateNextBlock(organization, data)` builds a fully populated block.
Its call site in `src/sdk/index.js` (`sendNewBlock`) passes only the
organization and the serialized payload, so the parent hash and the
wall-clock timestamp it reads are ambient state; they are explicit
parameters here. -/
def generateNextBlock (organization payload previousHash : String)
    (timestamp : Int) : Block :=
  { organization := organization, payload := payload, previousHash := previousHash,
    timestamp := timestamp,
    hash := calcBlockHash organization payload previousHash timestamp }

/-- Reading a block out of a deserialized JSON value (JavaScript property
access on the candidate object); `none` when a required field is missing
or of the wrong shape. -/
def blockOfJson (j : Json) : Option Block :=
  match jsonGet j "organization", jsonGet j "payload", jsonGet j "previousHash",
      jsonGet j "timestamp", jsonGet j "hash" with
  | some (.str o), some (.str p), some (.str ph), some (.num t), some (.str h) =>
      some ⟨o, p, ph, t, h⟩
  | _, _, _, _, _ => none

/-- The JSON form of a block, as produced by `JSON.stringify` on the block
object. -/
def blockToJson (b : Block) : Json :=
  .obj [("organization", .str b.organization), ("payload", .str b.payload),
        ("previousHash", .str b.previousHash), ("timestamp", .num b.timestamp),
        ("hash", .str b.hash)]

/-! ## The spec's validator (§4.2) -/

/-- Rejection reasons of the spec's validator. -/
inductive RejectReason where
  | malformedStructure
  | hashMismatch
  | staleOrForkedParent
deriving DecidableEq

/-- Verdict of the spec's validator. -/
inductive ValidationResult where
  | accepted
  | rejected (reason : RejectReason)
deriving DecidableEq

/-- Modelled from the spec: the well-known placeholder previous-hash value
used by the first block in an empty ledger (glossary: genesis sentinel). -/
def genesisSentinel : String := "0"

/-- The hash of the ledger's current head (most recent block first), or
the genesis sentinel for an empty ledger. -/
def headHash : List Block → String
  | [] => genesisSentinel
  | b :: _ => b.hash

/-- The validator as §4.2 of the spec states it, with its checks
short-circuiting in order: structural completeness, hash integrity, chain
continuity against the ledger's current head. -/
def validateSpec (b : Block) (ledger : List Block) : ValidationResult :=
  if b.organization = "" ∨ b.hash = "" then .rejected .malformedStructure
  else if b.hash ≠ blockHash b then .rejected .hashMismatch
  else if b.previousHash ≠ headHash ledger then .rejected .staleOrForkedParent
  else .accepted

/-- Modelled from the spec: `lib/block.js` is not under `src/`.
`isValidBlock(logger, block)` judges a candidate block by §4.2's checks —
structural completeness, hash integrity, and chain continuity against the
ledger's current head — and its boolean verdict is acceptance by the
spec's `validate` (`validateSpec`).  The call site in `src/sdk/index.js`
passes only the logger and the deserialized candidate, so the current
head is ambient module state read by the validator, just as
`generateNextBlock` reads the ambient parent hash; the ledger is an
explicit parameter here.  Candidates without a block's shape fail the
structural check.  The logger does not affect the verdict and is
omitted. -/
def isValidBlock (data : Json) (ledger : List Block) : Bool :=
  match blockOfJson data with
  | some b => if validateSpec b ledger = .accepted then true else false
  | none => false

/-! ## Ledger store (`db.Ledger.AddBlock`, modelled) -/

/-- Result of an append (§4.3). -/
inductive AppendResult where
  | appended
  | alreadyPresent
deriving DecidableEq

/-- Modelled from the spec: the database layer behind `db.Ledger.AddBlock`
is not under `src/`.  §4.3: append keyed by `hash` — a block whose hash is
already present is a no-op returning `AlreadyPresent`; otherwise the block
is persisted and becomes the new head (`Appended`).  The ledger is the
list of accepted blocks, most recent first. -/
def ledgerAddBlock (b : Block) (l : List Block) : AppendResult × List Block :=
  if l.any fun x => x.hash == b.hash then (.alreadyPresent, l)
  else (.appended, b :: l)

/-! ## Node state and SDK operations (`src/sdk/index.js`) -/

/-- Log levels used by the SDK. -/
inductive LogLevel where
  | error
  | warn
  | info
  | debug
deriving DecidableEq

/-- One entry written to the logging sink. -/
structure LogEntry where
  level : LogLevel
  msg : String
deriving DecidableEq

/-- The `configs.kafka.topics` record. -/
structure KafkaTopics where
  pending : String
deriving DecidableEq

/-- The slice of `configs` the modelled operations read. -/
structure Configs where
  role : String
  organization : String
  topics : KafkaTopics
deriving DecidableEq

/-- Observable node state: the persisted ledger, instrumentation counters
for validator and `AddBlock` invocations, the log, the messages handed to
the producer, and the open/closed state of the node's resources. -/
structure NodeState where
  ledger : List Block
  validateCalls : Nat
  addBlockCalls : Nat
  logs : List LogEntry
  produced : List (String × String)
  consumerOpen : Bool
  producerOpen : Bool
  webappOpen : Bool
  dbOpen : Bool
deriving DecidableEq

/-- Append one log entry. -/
def logAt (s : NodeState) (lv : LogLevel) (m : String) : NodeState :=
  { s with logs := s.logs ++ [⟨lv, m⟩] }

/-- Model of `hasRole` (src/sdk/index.js lines 29–32): strict equality of the
configured role with the queried one. -/
def hasRole (cfg : Configs) (r : String) : Bool := cfg.role == r

/-- A thrown JavaScript error: a `SyntaxError` from `JSON.parse`, or an
`Error(msg)`. -/
inductive JsError where
  | parseError
  | error (msg : String)
deriving DecidableEq

/-- A value returned by the message-handling path: the literal `false`, or
a block-hash string. -/
inductive JsOut where
  | jsFalse
  | jsStr (s : String)
deriving DecidableEq

/-- The invalid-block log message of `addBlockToLedger` line 159:
`(data && data.hash)` selects the specific message when `data` and its
`hash` property are truthy. -/
def invalidBlockMsg (data : Json) : String :=
  match (if jsTruthy data then jsonGet data "hash" else none) with
  | some hv =>
      if jsTruthy hv then "Skipping invalid block " ++ jsShow hv ++ "."
      else "Skipping an invalid block."
  | none => "Skipping an invalid block."

/-- Model of `addBlockToLedger` (src/sdk/index.js lines 152–173): validate the
deserialized candidate with `isValidBlock` (which reads the node's current
ledger as ambient state, passed explicitly); when invalid, log an error
and return `false`; when valid, log, call `db.Ledger.AddBlock`, log, and
return the block's hash.  `AddBlock` is modelled as non-throwing (storage
failures are outside the claims proved here), so the `catch` wrapper is
not reached. -/
def addBlockToLedger (data : Json) (s : NodeState) : JsOut × NodeState :=
  let s1 := { s with validateCalls := s.validateCalls + 1 }
  match blockOfJson data with
  | none => (.jsFalse, logAt s1 .error (invalidBlockMsg data))
  | some b =>
    if isValidBlock data s.ledger then
      let s2 := logAt s1 .debug ("Received block " ++ b.hash ++ ".")
      let (_, l2) := ledgerAddBlock b s2.ledger
      let s3 := { s2 with ledger := l2, addBlockCalls := s2.addBlockCalls + 1 }
      let s4 := logAt (logAt s3 .info ("Added new block " ++ b.hash ++ "."))
        .debug "Added new block"
      (.jsStr b.hash, s4)
    else (.jsFalse, logAt s1 .error (invalidBlockMsg data))

/-- Model of `onMessage` (src/sdk/index.js lines 116–128): deserialize the raw
payload first (`JSON.parse` throws a `SyntaxError` on malformed input
before the topic is inspected), then dispatch on the topic: on the pending
topic, peers ingest the block and every other role returns `false`; any
other topic throws. -/
def onMessage (cfg : Configs) (topic : String) (data : String) (s : NodeState) :
    Except JsError JsOut × NodeState :=
  match deserialize data with
  | none => (.error .parseError, s)
  | some deserialized =>
    if topic = cfg.topics.pending then
      if hasRole cfg "peer" then
        let (o, s') := addBlockToLedger deserialized s
        (.ok o, s')
      else (.ok .jsFalse, s)
    else (.error (.error "Received message of an invalid topic"), s)

/-- Model of `stopWebConsole` (src/sdk/index.js lines 83–86):
`this.webapp && this.webapp.close()`, with no `try/catch`; `webappCloseErr`
models a failing `close`. -/
def stopWebConsole (webappCloseErr : Option String) (s : NodeState) :
    Except JsError Unit × NodeState :=
  if s.webappOpen then
    match webappCloseErr with
    | some m => (.error (.error m), s)
    | none => (.ok (), { s with webappOpen := false })
  else (.ok (), s)

/-- Model of `stop` (src/sdk/index.js lines 69–73): close the Kafka consumer; no
other resource is touched. -/
def stop (s : NodeState) : Except JsError Unit × NodeState :=
  (.ok (), { s with consumerOpen := false })

/-- Model of `shutdown` (src/sdk/index.js lines 35–40):
`await this.stopWebConsole().stop()`, with no `try/catch`. -/
def shutdown (webappCloseErr : Option String) (s : NodeState) :
    Except JsError Unit × NodeState :=
  match stopWebConsole webappCloseErr s with
  | (.ok _, s1) => stop s1
  | (.error e, s1) => (.error e, s1)

/-! ## Sample data for concrete runs -/

/-- Kafka topics with the ordering (pending) topic named `pending`. -/
def sampleTopics : KafkaTopics := ⟨"pending"⟩

/-- A peer-role node configuration. -/
def peerCfg : Configs := ⟨"peer", "orgA", sampleTopics⟩

/-- An orderer-role node configuration (no ledger-writing duties). -/
def ordererCfg : Configs := ⟨"orderer", "orgA", sampleTopics⟩

/-- A fresh node state: empty ledger, no calls, no logs, all resources
open. -/
def emptyState : NodeState := ⟨[], 0, 0, [], [], true, true, true, true⟩

/-- A first block, child of the genesis sentinel. -/
def blockA : Block := generateNextBlock "orgA" "p1" genesisSentinel 1

/-- A block naming the parent hash `"nope"`, with a valid own hash. -/
def blockB : Block := generateNextBlock "orgB" "p2" "nope" 2

/-- A node state whose ledger head is `blockA`. -/
def stateWithA : NodeState := { emptyState with ledger := [blockA] }

/-- A node state whose ledger head carries the hash `"nope"` — the parent
`blockB` names. -/
def stateNope : NodeState := { emptyState with ledger := [{ blockA with hash := "nope" }] }

/-! ## Claims -/

/-- A small lemma used by several claims: reading the JSON form of a block
back as a block is the identity. -/
theorem blockOfJson_blockToJson (b : Block) : blockOfJson (blockToJson b) = some b := rfl

/-- Claim C1: a candidate block whose `previousHash` differs from the hash
of the ledger's current head (the genesis sentinel when empty) is rejected
by the ingestion path — it returns `false`, appends nothing, and never
calls `AddBlock` — regardless of whether the block's own hash is valid;
whenever the block-local checks pass, the spec validator's verdict at that
input is `Rejected(stale-or-forked-parent)`; and the same candidate is
accepted once the head matches, so the validation performed by the
ingestion path depends on the current ledger head. -/
theorem C1_stale_parent_rejected (b : Block) (s : NodeState)
    (hstale : b.previousHash ≠ headHash s.ledger) :
    (addBlockToLedger (blockToJson b) s).1 = .jsFalse ∧
    (addBlockToLedger (blockToJson b) s).2.ledger = s.ledger ∧
    (addBlockToLedger (blockToJson b) s).2.addBlockCalls = s.addBlockCalls ∧
    (b.organization ≠ "" → b.hash ≠ "" → b.hash = blockHash b →
      validateSpec b s.ledger = .rejected .staleOrForkedParent) ∧
    (∀ s' : NodeState, b.previousHash = headHash s'.ledger →
      b.organization ≠ "" → b.hash ≠ "" → b.hash = blockHash b →
      (addBlockToLedger (blockToJson b) s').1 = .jsStr b.hash) := by
  have hacc : validateSpec b s.ledger ≠ .accepted := by
    intro hc
    unfold validateSpec at hc
    split_ifs at hc with h1 h2
  have hvb : isValidBlock (blockToJson b) s.ledger = false := by
    unfold isValidBlock
    rw [blockOfJson_blockToJson]
    dsimp only
    rw [if_neg hacc]
  refine ⟨?_, ?_, ?_, ?_, ?_⟩
  · simp [addBlockToLedger, blockOfJson_blockToJson, hvb]
  · simp [addBlockToLedger, blockOfJson_blockToJson, hvb, logAt]
  · simp [addBlockToLedger, blockOfJson_blockToJson, hvb, logAt]
  · intro h1 h2 h3
    unfold validateSpec
    rw [if_neg (by simp [h1, h2]), if_neg (by simp [h3]), if_pos hstale]
  · intro s' hmatch h1 h2 h3
    have hacc' : validateSpec b s'.ledger = .accepted := by
      unfold validateSpec
      rw [if_neg (by simp [h1, h2]), if_neg (by simp [h3]),
        if_neg (by simp [hmatch])]
    have hvb' : isValidBlock (blockToJson b) s'.ledger = true := by
      unfold isValidBlock
      rw [blockOfJson_blockToJson]
      dsimp only
      rw [if_pos hacc']
    simp [addBlockToLedger, blockOfJson_blockToJson, hvb']

/-- Witness for C1: `blockB` (parent `"nope"`, valid own hash) is rejected
by the ingestion path when the head is `blockA`, and the same candidate is
accepted over a ledger whose head hash is `"nope"`. -/
theorem C1_witness :
    blockB.previousHash ≠ headHash stateWithA.ledger ∧
    (addBlockToLedger (blockToJson blockB) stateWithA).1 = .jsFalse ∧
    (addBlockToLedger (blockToJson blockB) stateNope).1 = .jsStr blockB.hash :=
  ⟨by decide, (C1_stale_parent_rejected blockB stateWithA (by decide)).1,
    (C1_stale_parent_rejected blockB stateWithA (by decide)).2.2.2.2 stateNope
      (by decide) (by decide) (by decide) (by decide)⟩

/-- Claim C2: a candidate judged invalid by the validator is logged and
skipped: the ingestion path returns the non-fatal value `false`, the
ledger is unchanged, `db.Ledger.AddBlock` is not called, and the rejection
is logged; validation never mutates the ledger (the verdict computation
touches no state). -/
theorem C2_invalid_block_skipped (data : Json) (s : NodeState)
    (h : isValidBlock data s.ledger = false) :
    (addBlockToLedger data s).1 = .jsFalse ∧
    (addBlockToLedger data s).2.ledger = s.ledger ∧
    (addBlockToLedger data s).2.addBlockCalls = s.addBlockCalls ∧
    (addBlockToLedger data s).2.logs = s.logs ++ [⟨.error, invalidBlockMsg data⟩] := by
  unfold addBlockToLedger
  cases hj : blockOfJson data with
  | none => exact ⟨rfl, rfl, rfl, rfl⟩
  | some b =>
    rw [h]
    exact ⟨rfl, rfl, rfl, rfl⟩

/-- Witness for C2: `null` delivered as a candidate block is invalid and
is skipped without touching the ledger of the concrete state. -/
theorem C2_witness :
    isValidBlock Json.null stateWithA.ledger = false ∧
    (addBlockToLedger Json.null stateWithA).1 = .jsFalse ∧
    (addBlockToLedger Json.null stateWithA).2.ledger = stateWithA.ledger :=
  ⟨rfl, (C2_invalid_block_skipped Json.null stateWithA rfl).1,
    (C2_invalid_block_skipped Json.null stateWithA rfl).2.1⟩

/-- Claim C3, as stated, is false for messages with malformed payloads —
concrete counterexample: the payload `"x"` delivered on the pending topic
to an orderer node makes the handler raise the JSON parse error (the
payload is parsed before the role is checked), so the node does not return
a no-op result without raising. -/
theorem C3_counterexample :
    (onMessage ordererCfg "pending" "x" emptyState).1 = .error .parseError ∧
    ∀ o : JsOut, (onMessage ordererCfg "pending" "x" emptyState).1 ≠ .ok o := by
  exact ⟨rfl, fun o => by simp [onMessage, deserialize, parseValue, parseNumber, parseNatNum]⟩

/-- Claim C3, amended: a node whose role is not `peer`, delivered a
message on the pending topic whose payload parses as JSON, performs no
validation and no append and returns the no-op value `false` without
raising: the state (ledger, counters, logs) is returned untouched. -/
theorem C3_nonpeer_ignores_pending (cfg : Configs) (topic data : String)
    (s : NodeState) (j : Json) (hparse : deserialize data = some j)
    (htopic : topic = cfg.topics.pending) (hrole : cfg.role ≠ "peer") :
    onMessage cfg topic data s = (.ok .jsFalse, s) := by
  unfold onMessage
  rw [hparse]
  dsimp only
  have hr : hasRole cfg "peer" = false := by
    unfold hasRole
    exact beq_eq_false_iff_ne.mpr hrole
  rw [if_pos htopic, hr]
  rfl

/-- Witness for C3: an orderer node delivered the structurally valid block
`blockA` on the pending topic returns `false` with its state unchanged. -/
theorem C3_witness :
    deserialize (serialize (blockToJson blockA)) = some (blockToJson blockA) ∧
    onMessage ordererCfg "pending" (serialize (blockToJson blockA)) emptyState
      = (.ok .jsFalse, emptyState) :=
  ⟨deserialize_serialize (blockToJson blockA),
    C3_nonpeer_ignores_pending ordererCfg "pending" _ emptyState (blockToJson blockA)
      (deserialize_serialize (blockToJson blockA)) rfl (by decide)⟩

/-- Claim C4, as stated, is false — concrete counterexample: a message with
the malformed payload `"oops"` on the unrecognized topic `"other"` makes
the handler raise the JSON parse error, not the invalid-topic error the
claim requires for every message on an unrecognized topic. -/
theorem C4_counterexample :
    onMessage peerCfg "other" "oops" emptyState = (.error .parseError, emptyState) ∧
    JsError.parseError ≠ .error "Received message of an invalid topic" := by
  exact ⟨rfl, by decide⟩

/-- Claim C4, amended: for every delivered message whose payload parses as
JSON, an unrecognized topic makes the handler throw the invalid-topic
error and perform no further processing (the state is untouched: no
validation, no append). -/
theorem C4_unknown_topic_raises (cfg : Configs) (topic data : String)
    (s : NodeState) (j : Json) (hparse : deserialize data = some j)
    (htopic : topic ≠ cfg.topics.pending) :
    onMessage cfg topic data s
      = (.error (.error "Received message of an invalid topic"), s) := by
  unfold onMessage
  rw [hparse]
  dsimp only
  rw [if_neg htopic]

/-- Witness for C4: a parsable payload on topic `"other"` raises the
invalid-topic error on a peer node. -/
theorem C4_witness :
    deserialize "null" = some Json.null ∧
    onMessage peerCfg "other" "null" emptyState
      = (.error (.error "Received message of an invalid topic"), emptyState) :=
  ⟨rfl, C4_unknown_topic_raises peerCfg "other" "null" emptyState Json.null rfl (by decide)⟩

/-- Claim C5: appending a block whose hash is fresh yields `Appended`;
appending it again yields `AlreadyPresent` and leaves the ledger
unchanged, which then holds exactly one copy of that hash; in general an
append whose hash already exists is a no-op (not an error). -/
theorem C5_append_idempotent (b : Block) (l : List Block) :
    ((∀ x ∈ l, x.hash ≠ b.hash) →
      ledgerAddBlock b l = (.appended, b :: l) ∧
      ledgerAddBlock b (b :: l) = (.alreadyPresent, b :: l) ∧
      ((b :: l).filter (fun x => x.hash == b.hash)).length = 1) ∧
    ((∃ x ∈ l, x.hash = b.hash) → ledgerAddBlock b l = (.alreadyPresent, l)) := by
  constructor
  · intro hfresh
    have hany : (l.any fun x => x.hash == b.hash) = false := by
      rw [List.any_eq_false]
      intro x hx
      simpa using hfresh x hx
    have hfil : (l.filter fun x => x.hash == b.hash) = [] := by
      rw [List.filter_eq_nil_iff]
      intro x hx
      simpa using hfresh x hx
    refine ⟨by rw [ledgerAddBlock, hany]; rfl, ?_, ?_⟩
    · rw [ledgerAddBlock]
      have : ((b :: l).any fun x => x.hash == b.hash) = true := by simp
      rw [this]
      rfl
    · rw [List.filter_cons, if_pos (by simp), hfil]
      rfl
  · intro ⟨x, hx, hh⟩
    have hany : (l.any fun x => x.hash == b.hash) = true :=
      List.any_eq_true.mpr ⟨x, hx, by simp [hh]⟩
    rw [ledgerAddBlock, hany]
    rfl

/-- Witness for C5: appending `blockA` to the empty ledger, then again. -/
theorem C5_witness :
    ledgerAddBlock blockA [] = (.appended, [blockA]) ∧
    ledgerAddBlock blockA [blockA] = (.alreadyPresent, [blockA]) :=
  ⟨((C5_append_idempotent blockA []).1 (by simp)).1,
    ((C5_append_idempotent blockA []).1 (by simp)).2.1⟩

/-- Claim C6: the block hash is a deterministic pure function of
`(organization, payload, previousHash, timestamp)`: equal fields give an
equal recomputed hash, and two blocks whose stored hashes were computed
from equal fields carry the same hash. -/
theorem C6_hash_deterministic (b1 b2 : Block)
    (ho : b1.organization = b2.organization) (hp : b1.payload = b2.payload)
    (hph : b1.previousHash = b2.previousHash) (ht : b1.timestamp = b2.timestamp) :
    blockHash b1 = blockHash b2 ∧
    (b1.hash = blockHash b1 → b2.hash = blockHash b2 → b1.hash = b2.hash) := by
  have h : blockHash b1 = blockHash b2 := by
    unfold blockHash calcBlockHash
    rw [ho, hp, hph, ht]
  exact ⟨h, fun h1 h2 => by rw [h1, h2, h]⟩

/-- Witness for C6: two distinct block records built from the same four
fields have the same recomputed hash. -/
theorem C6_witness :
    blockHash (generateNextBlock "orgA" "p1" genesisSentinel 1)
      = blockHash { blockA with hash := "tampered" } :=
  (C6_hash_deterministic (generateNextBlock "orgA" "p1" genesisSentinel 1)
    { blockA with hash := "tampered" } rfl rfl rfl rfl).1

/-- Claim C8, as stated, is false — concrete counterexample: on a node with
every resource open, a normal `shutdown` leaves the database (the Ledger
resource) and the Kafka producer open — only the web console and the
consumer are closed; and when the web console's `close` throws, `shutdown`
propagates the error and the consumer is never closed, so it does not
complete despite an individual release failing. -/
theorem C8_counterexample :
    (shutdown none emptyState).2.dbOpen = true ∧
    (shutdown none emptyState).2.producerOpen = true ∧
    (shutdown none emptyState).2.consumerOpen = false ∧
    (shutdown (some "close failed") emptyState).1 = .error (.error "close failed") ∧
    (shutdown (some "close failed") emptyState).2.consumerOpen = true := by
  exact ⟨rfl, rfl, rfl, rfl, rfl⟩

/-- Claim C8, amended: `shutdown` closes exactly the web console and the
Kafka consumer, leaving the producer and the database handle (the Ledger
resource) untouched; and when the web console's `close` throws, the error
propagates and the consumer is not closed. -/
theorem C8_shutdown_partial_release (s : NodeState) (m : String) :
    shutdown none s = (.ok (), { s with webappOpen := false, consumerOpen := false }) ∧
    (s.webappOpen = true → shutdown (some m) s = (.error (.error m), s)) := by
  constructor
  · unfold shutdown stopWebConsole stop
    by_cases hw : s.webappOpen = true
    · rw [if_pos hw]
    · rw [if_neg hw]
      dsimp only
      cases s
      simp_all
  · intro hw
    unfold shutdown stopWebConsole
    rw [if_pos hw]

/-- Witness for C8: on the concrete all-open state, a failing web-console
close makes `shutdown` raise and leaves the consumer open. -/
theorem C8_witness :
    emptyState.webappOpen = true ∧
    shutdown (some "boom") emptyState = (.error (.error "boom"), emptyState) :=
  ⟨rfl, (C8_shutdown_partial_release emptyState "boom").2 rfl⟩

/-- Claim C9: deserializing the serialization of any JSON value returns the
original value, so a block travels through the
serialize/publish/deserialize pipeline unmodified. -/
theorem C9_serialize_roundtrip :
    (∀ x : Json, deserialize (serialize x) = some x) ∧
    (∀ b : Block, deserialize (serialize (blockToJson b)) = some (blockToJson b)) :=
  ⟨deserialize_serialize, fun b => deserialize_serialize (blockToJson b)⟩

/-- Claim C10: the handler parses the raw payload before inspecting the
topic or the role, so a malformed payload raises the parse error whatever
the topic and role — in particular on an unrecognized topic or a
non-peer node — and the dispatch is never reached. -/
theorem C10_parse_before_dispatch (cfg : Configs) (topic data : String)
    (s : NodeState) (h : deserialize data = none) :
    onMessage cfg topic data s = (.error .parseError, s) := by
  unfold onMessage
  rw [h]

/-- Witness for C10: the malformed payload `x` raises the parse error on
an orderer node with an unrecognized topic — the topic/role dispatch is
not reached. -/
theorem C10_witness :
    deserialize "x" = none ∧
    onMessage ordererCfg "weird" "x" emptyState = (.error .parseError, emptyState) :=
  ⟨rfl, C10_parse_before_dispatch ordererCfg "weird" "x" emptyState rfl⟩

end Chainode
